import Mathlib

/-!
Verification of the serial capture receiver (`scripts/receive.py`).

The development shallowly embeds the receiver: strings are `List Char`,
the module-level mutable state (`done` flag, written files, the display
queue, console messages) is an explicit `PState` record, handlers are
state transformers, and a Python exception escaping a handler is the
`Except.error` case.  External library behaviour that the script relies
on is embedded from its documented text semantics: `numpy.loadtxt`
(whitespace tokenization of decimal integers, `#` comments), `numpy.savetxt`
(header comment line plus one space-separated `%d %d` row per sample) and
`str.split(" ", 1)` (split at the first space character, at most once).
-/

namespace Receive

/-- Whitespace characters as recognised by the numpy text loader when it
tokenizes a payload or a file row. -/
def isWS (c : Char) : Bool := c = ' ' || c = '\t' || c = '\n' || c = '\r'

/-- Splits a character list at every separator character (the separator
characters are consumed); chunks between separators may be empty. -/
def splitP (p : Char → Bool) : List Char → List (List Char)
  | [] => [[]]
  | c :: cs =>
    if p c then [] :: splitP p cs
    else match splitP p cs with
      | [] => [[c]]
      | t :: ts => (c :: t) :: ts

/-- Whitespace tokenization used by `numpy.loadtxt` on a `DATA` payload:
maximal whitespace-free runs, empty chunks dropped. -/
def tokenize (cs : List Char) : List (List Char) :=
  (splitP isWS cs).filter (fun t => !t.isEmpty)

theorem splitP_ne_nil (p : Char → Bool) : ∀ l : List Char, splitP p l ≠ []
  | [] => by simp [splitP]
  | c :: cs => by
    have ih := splitP_ne_nil p cs
    by_cases hc : p c
    · simp [splitP, hc]
    · cases h : splitP p cs with
      | nil => exact absurd h ih
      | cons t ts => simp [splitP, hc, h]

theorem splitP_all_neg (p : Char → Bool) :
    ∀ l : List Char, (∀ c ∈ l, p c = false) → splitP p l = [l]
  | [], _ => rfl
  | c :: cs, h => by
    have hc : p c = false := h c (by simp)
    have ih := splitP_all_neg p cs (fun x hx => h x (by simp [hx]))
    simp [splitP, hc, ih]

theorem splitP_append_sep (p : Char → Bool) (sep : Char) (hsep : p sep = true) :
    ∀ (t r : List Char), (∀ c ∈ t, p c = false) →
      splitP p (t ++ sep :: r) = t :: splitP p r
  | [], r, _ => by simp [splitP, hsep]
  | c :: t, r, h => by
    have hc : p c = false := h c (by simp)
    have ih := splitP_append_sep p sep hsep t r (fun x hx => h x (by simp [hx]))
    simp [splitP, hc, ih]

/-- Decimal digit character for a value below ten (values of ten or more
cannot arise from `n % 10`). -/
def digitChar (d : Nat) : Char :=
  match d with
  | 0 => '0' | 1 => '1' | 2 => '2' | 3 => '3' | 4 => '4'
  | 5 => '5' | 6 => '6' | 7 => '7' | 8 => '8' | _ => '9'

/-- Numeric value of a decimal digit character. -/
def digitVal (c : Char) : Nat := c.toNat - 48

/-- Fuel-indexed decimal rendering of a natural number, most significant
digit first; any fuel above the digit count yields the full numeral. -/
def renderNatAux : Nat → Nat → List Char
  | 0, _ => []
  | fuel + 1, n =>
    if n < 10 then [digitChar n]
    else renderNatAux fuel (n / 10) ++ [digitChar (n % 10)]

/-- Decimal numeral of a natural number (embeds the `%d` formatting used
by `numpy.savetxt` and the device-side encoding). -/
def renderNat (n : Nat) : List Char := renderNatAux (n + 1) n

/-- Decimal numeral of an integer: a leading minus sign for negatives. -/
def renderInt (i : Int) : List Char :=
  if i < 0 then '-' :: renderNat i.natAbs else renderNat i.natAbs

/-- Value of a run of decimal digit characters, most significant first. -/
def parseNatDigits (ds : List Char) : Nat :=
  ds.foldl (fun a c => a * 10 + digitVal c) 0

/-- Parses a non-empty all-digit token as a natural number (embeds the
integer conversion performed by `numpy.loadtxt` with an integer dtype). -/
def parseNat (ds : List Char) : Option Nat :=
  if ds = [] then none
  else if ds.all Char.isDigit then some (parseNatDigits ds) else none

/-- Parses a token as a decimal integer, allowing one leading minus sign. -/
def parseIntTok (cs : List Char) : Option Int :=
  match cs with
  | [] => none
  | c :: ds =>
    if c = '-' then (parseNat ds).map (fun n => -(n : Int))
    else (parseNat (c :: ds)).map (fun n => (n : Int))

theorem digitChar_isDigit (d : Nat) : (digitChar d).isDigit = true := by
  unfold digitChar; split <;> decide

theorem digitVal_digitChar (d : Nat) (h : d < 10) : digitVal (digitChar d) = d := by
  interval_cases d <;> decide

theorem renderNatAux_digits :
    ∀ (fuel n : Nat), ∀ c ∈ renderNatAux fuel n, c.isDigit = true
  | 0, _ => by simp [renderNatAux]
  | fuel + 1, n => by
    intro c hc
    by_cases hn : n < 10
    · simp [renderNatAux, hn] at hc
      simpa [hc] using digitChar_isDigit n
    · simp [renderNatAux, hn] at hc
      rcases hc with hc | hc
      · exact renderNatAux_digits fuel (n / 10) c hc
      · simpa [hc] using digitChar_isDigit (n % 10)

theorem renderNatAux_ne_nil :
    ∀ (fuel n : Nat), n < fuel → renderNatAux fuel n ≠ []
  | 0, _, h => by omega
  | fuel + 1, n, _ => by
    by_cases hn : n < 10 <;> simp [renderNatAux, hn]

theorem parseNatDigits_append_digit (ds : List Char) (c : Char) :
    parseNatDigits (ds ++ [c]) = parseNatDigits ds * 10 + digitVal c := by
  simp [parseNatDigits, List.foldl_append]

theorem parseNatDigits_renderNatAux :
    ∀ (fuel n : Nat), n < fuel → parseNatDigits (renderNatAux fuel n) = n
  | 0, _, h => by omega
  | fuel + 1, n, h => by
    by_cases hn : n < 10
    · simp [renderNatAux, hn, parseNatDigits]
      simpa [digitVal] using digitVal_digitChar n hn
    · have hdiv : n / 10 < n := Nat.div_lt_self (by omega) (by omega)
      have hfuel : n / 10 < fuel := by omega
      have ih := parseNatDigits_renderNatAux fuel (n / 10) hfuel
      have hmod := digitVal_digitChar (n % 10) (Nat.mod_lt n (by omega))
      simp [renderNatAux, hn, parseNatDigits_append_digit, ih, hmod]
      omega

theorem renderNat_digits (n : Nat) : ∀ c ∈ renderNat n, c.isDigit = true :=
  renderNatAux_digits (n + 1) n

theorem renderNat_ne_nil (n : Nat) : renderNat n ≠ [] :=
  renderNatAux_ne_nil (n + 1) n (by omega)

theorem parseNat_renderNat (n : Nat) : parseNat (renderNat n) = some n := by
  have hne := renderNat_ne_nil n
  have hall : (renderNat n).all Char.isDigit = true := by
    rw [List.all_eq_true]
    intro c hc
    exact renderNat_digits n c hc
  simp [parseNat, hne, hall]
  exact parseNatDigits_renderNatAux (n + 1) n (by omega)

theorem isDigit_ne_minus {c : Char} (h : c.isDigit = true) : c ≠ '-' := by
  intro hc; rw [hc] at h; simp [Char.isDigit] at h

theorem parseIntTok_renderInt (i : Int) : parseIntTok (renderInt i) = some i := by
  by_cases hi : i < 0
  · simp [renderInt, hi, parseIntTok, parseNat_renderNat]
    rw [abs_of_neg hi, neg_neg]
  · have hne := renderNat_ne_nil i.natAbs
    cases h : renderNat i.natAbs with
    | nil => exact absurd h hne
    | cons c cs =>
      have hd : c.isDigit = true := renderNat_digits i.natAbs c (by simp [h])
      have hcm : ¬ c = '-' := isDigit_ne_minus hd
      have : parseNat (c :: cs) = some i.natAbs := by rw [← h]; exact parseNat_renderNat i.natAbs
      simp [renderInt, hi, h, parseIntTok, hcm, this]
      omega

/-- Parses every token as an integer; fails if any token is not one
(models the `ValueError` raised by `numpy.loadtxt` with integer dtype). -/
def parseInts : List (List Char) → Option (List Int)
  | [] => some []
  | t :: ts =>
    match parseIntTok t, parseInts ts with
    | some v, some vs => some (v :: vs)
    | _, _ => none

/-- Flat integer sequence read from a `DATA` payload, embedding
`np.loadtxt(StringIO(data), dtype=int)` in `SerialIO.onData`. -/
def decodeInts (payload : List Char) : Option (List Int) :=
  parseInts (tokenize payload)

/-- Groups a flat sequence pairwise, embedding `arr.reshape((-1,2))` in
`SerialIO.onData`; fails on an odd element count (the `ValueError` that
reshape raises). -/
def pairup : List Int → Option (List (Int × Int))
  | [] => some []
  | [_] => none
  | a :: b :: rest => (pairup rest).map (fun ps => (a, b) :: ps)

/-- Reverse of `pairup`: the flat sample sequence of a capture. -/
def flattenPairs : List (Int × Int) → List Int
  | [] => []
  | (a, b) :: r => a :: b :: flattenPairs r

/-- Failure cases of `SerialIO.onData`: a token that is not an integer
(`loadtxt` raises) or an odd token count (`reshape` raises). -/
inductive DecodeErr
  | notInt
  | oddCount
  deriving DecidableEq

/-- Full decoding of a `DATA` payload into a capture, as performed by the
first two statements of `SerialIO.onData`. -/
def decodePayload (payload : List Char) : Except DecodeErr (List (Int × Int)) :=
  match decodeInts payload with
  | none => .error .notInt
  | some vs =>
    match pairup vs with
    | none => .error .oddCount
    | some ps => .ok ps

/-- Joins chunks with single spaces between them. -/
def joinSp : List (List Char) → List Char
  | [] => []
  | [t] => t
  | t :: ts => t ++ ' ' :: joinSp ts

/-- Modelled from the spec: the device-side payload encoding is not part
of the receiver script; per the wire protocol section, a `DATA` payload is
a whitespace-separated sequence of decimal integers, here rendered with
single spaces. -/
def encodePayload (S : List Int) : List Char :=
  joinSp (S.map renderInt)

instance {ε α : Type} [DecidableEq ε] [DecidableEq α] : DecidableEq (Except ε α) := fun a b =>
  match a, b with
  | .ok x, .ok y =>
    if h : x = y then .isTrue (by rw [h]) else .isFalse (by intro hc; cases hc; exact h rfl)
  | .error x, .error y =>
    if h : x = y then .isTrue (by rw [h]) else .isFalse (by intro hc; cases hc; exact h rfl)
  | .ok _, .error _ => .isFalse (by intro hc; cases hc)
  | .error _, .ok _ => .isFalse (by intro hc; cases hc)

theorem isDigit_not_ws {c : Char} (h : c.isDigit = true) : isWS c = false := by
  simp only [isWS, Bool.or_eq_false_iff, decide_eq_false_iff_not]
  refine ⟨⟨⟨?_, ?_⟩, ?_⟩, ?_⟩ <;> (rintro rfl; revert h; decide)

theorem renderInt_not_ws (i : Int) : ∀ c ∈ renderInt i, isWS c = false := by
  intro c hc
  by_cases hi : i < 0
  · simp [renderInt, hi] at hc
    rcases hc with hc | hc
    · rw [hc]; decide
    · exact isDigit_not_ws (renderNat_digits i.natAbs c hc)
  · simp [renderInt, hi] at hc
    exact isDigit_not_ws (renderNat_digits i.natAbs c hc)

theorem renderInt_ne_nil (i : Int) : renderInt i ≠ [] := by
  by_cases hi : i < 0 <;> simp [renderInt, hi, renderNat_ne_nil]

theorem tokenize_joinSp :
    ∀ ts : List (List Char),
      (∀ t ∈ ts, t ≠ [] ∧ ∀ c ∈ t, isWS c = false) →
      tokenize (joinSp ts) = ts
  | [], _ => rfl
  | [t], h => by
    have ht := h t (by simp)
    simp only [joinSp, tokenize]
    rw [splitP_all_neg isWS t ht.2]
    simp [ht.1]
  | t :: t' :: ts, h => by
    have ht := h t (by simp)
    have ih := tokenize_joinSp (t' :: ts) (fun x hx => h x (by simp at hx ⊢; tauto))
    simp only [joinSp, tokenize]
    rw [splitP_append_sep isWS ' ' (by decide) t (joinSp (t' :: ts)) ht.2]
    simp only [List.filter_cons, ht.1]
    simp only [tokenize] at ih
    simp [ih, ht.1]

theorem parseInts_map_renderInt :
    ∀ S : List Int, parseInts (S.map renderInt) = some S
  | [] => rfl
  | v :: vs => by
    simp [parseInts, parseIntTok_renderInt v, parseInts_map_renderInt vs]

theorem decodeInts_encodePayload (S : List Int) :
    decodeInts (encodePayload S) = some S := by
  unfold decodeInts encodePayload
  rw [tokenize_joinSp (S.map renderInt) ?_]
  · exact parseInts_map_renderInt S
  · intro t ht
    simp only [List.mem_map] at ht
    obtain ⟨i, _, rfl⟩ := ht
    exact ⟨renderInt_ne_nil i, renderInt_not_ws i⟩

theorem pairup_even :
    ∀ S : List Int, S.length % 2 = 0 → (pairup S).map flattenPairs = some S
  | [], _ => rfl
  | [_], h => by simp at h
  | a :: b :: r, h => by
    have hr : r.length % 2 = 0 := by
      have hl : (a :: b :: r).length = r.length + 2 := by simp
      omega
    have ih := pairup_even r hr
    cases hp : pairup r with
    | none => rw [hp] at ih; exact absurd ih (by simp)
    | some ps =>
      rw [hp] at ih
      have hfl : flattenPairs ps = r := by simpa using ih
      simp [pairup, hp, flattenPairs, hfl]

theorem decodePayload_encodePayload (S : List Int) (h : S.length % 2 = 0) :
    (decodePayload (encodePayload S)).map flattenPairs = .ok S := by
  unfold decodePayload
  rw [decodeInts_encodePayload S]
  have := pairup_even S h
  cases hp : pairup S with
  | none => rw [hp] at this; exact absurd this (by simp)
  | some ps =>
    rw [hp] at this
    have hfl : flattenPairs ps = S := by simpa using this
    simp [hp, Except.map, hfl]

/-- Header comment line that `np.savetxt(..., header="Time(us) State(HIGH/LOW)")`
writes: the comment prefix followed by the given header text. -/
def headerLine : List Char := "# Time(us) State(HIGH/LOW)".data

/-- One persisted row, as formatted by `np.savetxt(..., fmt="%d")` with the
default single-space delimiter. -/
def rowLine (t s : Int) : List Char := renderInt t ++ ' ' :: renderInt s

/-- Row section of the persisted file: one newline-terminated row per sample. -/
def csvBody : List (Int × Int) → List Char
  | [] => []
  | (t, s) :: r => rowLine t s ++ '\n' :: csvBody r

/-- Full text written by `np.savetxt` in `SerialIO.onData`: the header
comment line, then one row per (timestamp, state) sample. -/
def writeCSV (ps : List (Int × Int)) : List Char :=
  headerLine ++ '\n' :: csvBody ps

/-- Removes everything from the first `#` onward, as the numpy text loader
does with its default comment character. -/
def stripComment (l : List Char) : List Char := l.takeWhile (fun c => !(c = '#'))

/-- Parses one data row of a two-column file into its (timestamp, state)
pair; a row must hold exactly two integer tokens. -/
def parseRow (l : List Char) : Option (Int × Int) :=
  match tokenize l with
  | [a, b] =>
    match parseIntTok a, parseIntTok b with
    | some x, some y => some (x, y)
    | _, _ => none
  | _ => none

/-- Parses every data row of a two-column file. -/
def parseRows : List (List Char) → Option (List (Int × Int))
  | [] => some []
  | l :: ls =>
    match parseRow l, parseRows ls with
    | some pr, some prs => some (pr :: prs)
    | _, _ => none

/-- Re-reading of a persisted capture file, embedding `np.loadtxt` on the
produced text: split into lines, strip comments, skip blank lines, parse
each remaining row as one (timestamp, state) pair. -/
def readCSV (text : List Char) : Option (List (Int × Int)) :=
  parseRows
    (((splitP (fun c => c = '\n') text).map stripComment).filter
      (fun l => !(tokenize l).isEmpty))

theorem takeWhile_all {p : Char → Bool} :
    ∀ l : List Char, (∀ c ∈ l, p c = true) → l.takeWhile p = l
  | [], _ => rfl
  | c :: cs, h => by
    have hc : p c = true := h c (by simp)
    have ih := takeWhile_all cs (fun x hx => h x (by simp [hx]))
    simp [List.takeWhile, hc, ih]

theorem renderInt_chars (i : Int) :
    ∀ c ∈ renderInt i, c.isDigit = true ∨ c = '-' := by
  intro c hc
  by_cases hi : i < 0
  · simp [renderInt, hi] at hc
    rcases hc with hc | hc
    · exact Or.inr hc
    · exact Or.inl (renderNat_digits i.natAbs c hc)
  · simp [renderInt, hi] at hc
    exact Or.inl (renderNat_digits i.natAbs c hc)

theorem rowLine_chars (t s : Int) :
    ∀ c ∈ rowLine t s, c.isDigit = true ∨ c = '-' ∨ c = ' ' := by
  intro c hc
  simp [rowLine] at hc
  rcases hc with hc | hc | hc
  · rcases renderInt_chars t c hc with h | h
    · exact Or.inl h
    · exact Or.inr (Or.inl h)
  · exact Or.inr (Or.inr hc)
  · rcases renderInt_chars s c hc with h | h
    · exact Or.inl h
    · exact Or.inr (Or.inl h)

theorem isDigit_ne_nl {c : Char} (h : c.isDigit = true) : (c = '\n' : Bool) = false := by
  simp only [decide_eq_false_iff_not]
  rintro rfl; revert h; decide

theorem isDigit_ne_hash {c : Char} (h : c.isDigit = true) : (c = '#' : Bool) = false := by
  simp only [decide_eq_false_iff_not]
  rintro rfl; revert h; decide

theorem rowLine_no_nl (t s : Int) :
    ∀ c ∈ rowLine t s, (c = '\n' : Bool) = false := by
  intro c hc
  rcases rowLine_chars t s c hc with h | h | h
  · exact isDigit_ne_nl h
  · rw [h]; decide
  · rw [h]; decide

theorem rowLine_no_hash (t s : Int) :
    ∀ c ∈ rowLine t s, (c = '#' : Bool) = false := by
  intro c hc
  rcases rowLine_chars t s c hc with h | h | h
  · exact isDigit_ne_hash h
  · rw [h]; decide
  · rw [h]; decide

theorem stripComment_rowLine (t s : Int) : stripComment (rowLine t s) = rowLine t s :=
  takeWhile_all (rowLine t s) (fun c hc => by simp [rowLine_no_hash t s c hc])

theorem tokenize_rowLine (t s : Int) :
    tokenize (rowLine t s) = [renderInt t, renderInt s] := by
  unfold tokenize rowLine
  rw [splitP_append_sep isWS ' ' (by decide) (renderInt t) (renderInt s) (renderInt_not_ws t),
    splitP_all_neg isWS (renderInt s) (renderInt_not_ws s)]
  simp [renderInt_ne_nil t, renderInt_ne_nil s]

theorem parseRow_rowLine (t s : Int) : parseRow (rowLine t s) = some (t, s) := by
  simp [parseRow, tokenize_rowLine, parseIntTok_renderInt]

theorem splitNL_csvBody :
    ∀ ps : List (Int × Int),
      splitP (fun c => c = '\n') (csvBody ps) =
        (ps.map (fun pr => rowLine pr.1 pr.2)) ++ [[]]
  | [] => rfl
  | (t, s) :: r => by
    have ih := splitNL_csvBody r
    simp only [csvBody]
    rw [splitP_append_sep (fun c => c = '\n') '\n' (by decide) (rowLine t s) (csvBody r)
      (rowLine_no_nl t s)]
    simp [ih]

theorem parseRows_rowLines :
    ∀ ps : List (Int × Int),
      parseRows (ps.map (fun pr => rowLine pr.1 pr.2)) = some ps
  | [] => rfl
  | (t, s) :: r => by
    simp [parseRows, parseRow_rowLine, parseRows_rowLines r]

theorem readCSV_writeCSV (ps : List (Int × Int)) : readCSV (writeCSV ps) = some ps := by
  unfold readCSV writeCSV
  rw [splitP_append_sep (fun c => c = '\n') '\n' (by decide) headerLine (csvBody ps)
    (by decide), splitNL_csvBody ps]
  have hhdr : stripComment headerLine = [] := by decide
  have htoknil : (tokenize ([] : List Char)).isEmpty = true := by decide
  simp only [List.map_cons, List.map_append, List.map_map, hhdr, List.filter_cons,
    List.filter_append, htoknil]
  have hrows :
      ∀ qs : List (Int × Int),
        (qs.map (stripComment ∘ fun pr => rowLine pr.1 pr.2)).filter
            (fun l => !(tokenize l).isEmpty) =
          qs.map (fun pr => rowLine pr.1 pr.2) := by
    intro qs
    induction qs with
    | nil => rfl
    | cons pr r ih =>
      have hst : stripComment (rowLine pr.1 pr.2) = rowLine pr.1 pr.2 :=
        stripComment_rowLine pr.1 pr.2
      have htok : (tokenize (rowLine pr.1 pr.2)).isEmpty = false := by
        rw [tokenize_rowLine]; rfl
      simp [Function.comp, hst, htok, ih]
  simp only [hrows]
  have hnil : tokenize (stripComment ([] : List Char)) = [] := rfl
  simp [hnil, parseRows_rowLines ps]

/-- Configuration relevant to the embedded behaviour: `args.show_signal`
(`--show-signal`).  Port, baud rate and output directory only parameterize
external resources and are not needed by any claim. -/
structure Config where
  showSignal : Bool
  deriving DecidableEq

/-- Observable actions of the script: each console print and each handler
invocation, in program order.  `unknownPair` is the invocation shape the
spec describes for the unknown-tag handler (tag and payload together);
the script's `onUnknown` receives the payload alone, so the embedding of
the code only ever produces `unknown`. -/
inductive Event
  | connEstablished
  | log (msg : List Char)
  | unknown (data : List Char)
  | unknownPair (tag payload : List Char)
  | dataCaptured (cap : List (Int × Int))
  | failedMsg
  | connClosed
  | cleaningUp
  deriving DecidableEq

/-- Process state: the module-level `done` flag, the contents of the
capture files written so far (in creation order; the random uuid filename
is external and abstracted away), the display queue `q`, and the trace of
observable events. -/
structure PState where
  done : Bool
  files : List (List (Int × Int))
  queue : List (List (Int × Int))
  events : List Event
  deriving DecidableEq

/-- State at module load: `done = False`, no files, `q = Queue()` empty. -/
def initState : PState := ⟨false, [], [], []⟩

/-- Enqueue on an unbounded `queue.Queue`: `q.put(x)` appends and never
blocks, fails, or drops. -/
def qput (x : α) (q : List α) : List α := q ++ [x]

/-- Non-blocking dequeue `q.get(False)`: the oldest item, or `None`
(the `Empty` case) on an empty queue. -/
def qget : List α → Option (α × List α)
  | [] => none
  | x :: r => some (x, r)

/-- Embeds `line.split(" ", 1)`: splits at the first space character only;
`none` when the line has no space (Python then returns a one-element list,
which `handle_line` drops). -/
def splitOnFirstSpace : List Char → Option (List Char × List Char)
  | [] => none
  | c :: cs =>
    if c = ' ' then some ([], cs)
    else (splitOnFirstSpace cs).map (fun pr => (c :: pr.1, pr.2))

/-- The three handlers reachable from `handle_line`'s dispatch dict. -/
inductive Handler
  | log
  | data
  | unknown
  deriving DecidableEq

/-- Embeds the dispatch dict `{"LOG": onLog, "DATA": onData}.get(tag, onUnknown)`. -/
def chooseHandler (tag : List Char) : Handler :=
  if tag = "LOG".data then .log
  else if tag = "DATA".data then .data
  else .unknown

/-- Appends one observable event (a print or handler effect). -/
def addEvent (e : Event) (st : PState) : PState :=
  { st with events := st.events ++ [e] }

/-- Embeds `np.savetxt(...)` plus the confirmation print in `onData`:
the capture becomes a new file and the confirmation is emitted. -/
def writeCapture (cap : List (Int × Int)) (st : PState) : PState :=
  { st with files := st.files ++ [cap], events := st.events ++ [.dataCaptured cap] }

/-- Embeds `if args.show_signal: q.put(arr)` in `onData`. -/
def enqueueIfShow (cfg : Config) (cap : List (Int × Int)) (st : PState) : PState :=
  if cfg.showSignal then { st with queue := qput cap st.queue } else st

/-- Embeds `SerialIO.onData`: decode the payload (raising on failure),
then persist the capture, then optionally enqueue it for display. -/
def onData (cfg : Config) (payload : List Char) (st : PState) :
    Except DecodeErr PState :=
  match decodePayload payload with
  | .error e => .error e
  | .ok cap => .ok (enqueueIfShow cfg cap (writeCapture cap st))

/-- Runs the handler selected by the dispatch dict on the payload. -/
def runHandler (cfg : Config) : Handler → List Char → PState → Except DecodeErr PState
  | .log, payload, st => .ok (addEvent (.log payload) st)
  | .unknown, payload, st => .ok (addEvent (.unknown payload) st)
  | .data, payload, st => onData cfg payload st

/-- Embeds `SerialIO.handle_line`: split at the first space, drop the line
when the split yields fewer than two parts, otherwise dispatch. -/
def handleLine (cfg : Config) (line : List Char) (st : PState) :
    Except DecodeErr PState :=
  match splitOnFirstSpace line with
  | none => .ok st
  | some (tag, payload) => runHandler cfg (chooseHandler tag) payload st

/-- Embeds `SerialIO.connection_lost`: prints the failure cause (when one
is given) and the closing message.  The source's final `done = True` has
no `global done` declaration, so it binds a function-local name; the
module-level flag is left untouched, which this embedding reflects by not
changing `done`. -/
def connectionLost (withCause : Bool) (st : PState) : PState :=
  addEvent .connClosed (if withCause then addEvent .failedMsg st else st)

/-- Embeds `signal_handler`: prints the cleanup message and, via its
`global done` declaration, sets the module-level flag. -/
def signalHandler (st : PState) : PState :=
  { addEvent .cleaningUp st with done := true }

/-- Embeds the pyserial reader thread loop driving `handle_line`: lines
are handled in order; an exception escaping a handler stops the loop and
`connection_lost(error)` is invoked with the pending exception. -/
def runReader (cfg : Config) : List (List Char) → PState → PState
  | [], st => st
  | l :: rest, st =>
    match handleLine cfg l st with
    | .ok st1 => runReader cfg rest st1
    | .error _ => connectionLost true st

/-- One body execution of the foreground polling loop in `main`: try a
non-blocking dequeue (rendering the dequeued capture is external), swallow
`Empty`, sleep. -/
def pollOnce (st : PState) : PState :=
  match qget st.queue with
  | some (_, r) => { st with queue := r }
  | none => st

/-- Embeds `while not done: ...` in `main`, fuel-bounded: the flag is
tested before every body execution and the loop exits at the first test
that observes it set. -/
def mainLoop (cfg : Config) : Nat → PState → PState
  | 0, st => st
  | n + 1, st => if st.done then st else mainLoop cfg n (pollOnce st)

/-- Interleaving alphabet of the two contexts: a reader-thread line
delivery, the interrupt signal, a connection-loss callback, or one
foreground poll iteration. -/
inductive Step
  | line (l : List Char)
  | sigint
  | connLost (withCause : Bool)
  | poll

/-- Effect of one step on the shared process state. -/
def step (cfg : Config) : Step → PState → PState
  | .line l, st =>
    match handleLine cfg l st with
    | .ok st1 => st1
    | .error _ => connectionLost true st
  | .sigint, st => signalHandler st
  | .connLost b, st => connectionLost b st
  | .poll, st => pollOnce st

/-- Runs a sequence of interleaved steps from a given state. -/
def runSteps (cfg : Config) : List Step → PState → PState
  | [], st => st
  | s :: rest, st => runSteps cfg rest (step cfg s st)

/-- Every capture currently in the display queue has already been
persisted as a file. -/
def QueuePersisted (st : PState) : Prop :=
  ∀ c ∈ st.queue, c ∈ st.files

/-- Configuration with signal display disabled. -/
def cfg0 : Config := ⟨false⟩

/-- Configuration with signal display enabled. -/
def cfgShow : Config := ⟨true⟩

theorem sfs_none_iff :
    ∀ line : List Char, splitOnFirstSpace line = none ↔ ' ' ∉ line
  | [] => by simp [splitOnFirstSpace]
  | c :: cs => by
    by_cases hc : c = ' '
    · subst hc; simp [splitOnFirstSpace]
    · have ih := sfs_none_iff cs
      cases hs : splitOnFirstSpace cs with
      | none =>
        have hr : ' ' ∉ c :: cs := by
          intro hm
          rcases List.mem_cons.mp hm with he | hm2
          · exact hc he.symm
          · exact (ih.mp hs) hm2
        simp [splitOnFirstSpace, hc, hs, hr]
      | some pr =>
        have hmem : ' ' ∈ cs := by
          by_contra hm
          rw [ih.mpr hm] at hs
          exact Option.noConfusion hs
        simp [splitOnFirstSpace, hc, hs, hmem]

theorem sfs_some :
    ∀ (line tag payload : List Char),
      splitOnFirstSpace line = some (tag, payload) →
      line = tag ++ ' ' :: payload ∧ ' ' ∉ tag
  | [], _, _, h => by simp [splitOnFirstSpace] at h
  | c :: cs, tag, payload, h => by
    by_cases hc : c = ' '
    · subst hc
      simp [splitOnFirstSpace] at h
      obtain ⟨h1, h2⟩ := h
      subst h1; subst h2
      simp
    · cases hs : splitOnFirstSpace cs with
      | none => simp [splitOnFirstSpace, hc, hs] at h
      | some pr =>
        obtain ⟨t, p⟩ := pr
        simp [splitOnFirstSpace, hc, hs] at h
        obtain ⟨h1, h2⟩ := h
        subst h1; subst h2
        obtain ⟨hline, hmem⟩ := sfs_some cs t p hs
        constructor
        · simp [hline]
        · intro hm
          rcases List.mem_cons.mp hm with he | hm2
          · exact hc he.symm
          · exact hmem hm2

theorem sfs_of_append :
    ∀ (tag payload : List Char), ' ' ∉ tag →
      splitOnFirstSpace (tag ++ ' ' :: payload) = some (tag, payload)
  | [], payload, _ => by simp [splitOnFirstSpace]
  | c :: tag, payload, h => by
    have hc : ¬ c = ' ' := fun hcc => h (by simp [hcc])
    have ih := sfs_of_append tag payload (fun hm => h (by simp [hm]))
    simp [splitOnFirstSpace, hc, ih]

theorem onData_ok_eq (cfg : Config) (payload : List Char) (cap : List (Int × Int))
    (st : PState) (h : decodePayload payload = .ok cap) :
    onData cfg payload st = .ok (enqueueIfShow cfg cap (writeCapture cap st)) := by
  unfold onData
  rw [h]

theorem onData_error_eq (cfg : Config) (payload : List Char) (e : DecodeErr)
    (st : PState) (h : decodePayload payload = .error e) :
    onData cfg payload st = .error e := by
  unfold onData
  rw [h]

theorem handleLine_dataLine (cfg : Config) (payload : List Char) (st : PState) :
    handleLine cfg ("DATA".data ++ ' ' :: payload) st = onData cfg payload st := by
  unfold handleLine
  rw [sfs_of_append ("DATA".data) payload (by decide)]
  show runHandler cfg (chooseHandler ("DATA".data)) payload st = onData cfg payload st
  have hch : chooseHandler ("DATA".data) = .data := by decide
  rw [hch]
  rfl

theorem addEvent_done (e : Event) (st : PState) : (addEvent e st).done = st.done := rfl

theorem enqueueIfShow_done (cfg : Config) (cap : List (Int × Int)) (st : PState) :
    (enqueueIfShow cfg cap st).done = st.done := by
  by_cases hc : cfg.showSignal <;> simp [enqueueIfShow, hc, writeCapture]

theorem connectionLost_done (withCause : Bool) (st : PState) :
    (connectionLost withCause st).done = st.done := by
  cases withCause <;> rfl

theorem pollOnce_done (st : PState) : (pollOnce st).done = st.done := by
  unfold pollOnce
  cases h : qget st.queue with
  | none => rfl
  | some pr => rfl

theorem handleLine_done (cfg : Config) (l : List Char) (st st1 : PState)
    (h : handleLine cfg l st = .ok st1) : st1.done = st.done := by
  unfold handleLine at h
  cases hs : splitOnFirstSpace l with
  | none => rw [hs] at h; cases h; rfl
  | some pr =>
    rw [hs] at h
    obtain ⟨tag, payload⟩ := pr
    replace h : runHandler cfg (chooseHandler tag) payload st = Except.ok st1 := h
    cases hch : chooseHandler tag with
    | log => rw [hch] at h; cases h; rfl
    | unknown => rw [hch] at h; cases h; rfl
    | data =>
      rw [hch] at h
      replace h : onData cfg payload st = Except.ok st1 := h
      unfold onData at h
      cases hd : decodePayload payload with
      | error e => rw [hd] at h; exact Except.noConfusion h
      | ok cap =>
        rw [hd] at h
        replace h :
            Except.ok (enqueueIfShow cfg cap (writeCapture cap st)) = Except.ok st1 := h
        cases h
        rw [enqueueIfShow_done]
        rfl

theorem qget_eq_some {q r : List α} {x : α} (h : qget q = some (x, r)) :
    q = x :: r := by
  cases q with
  | nil => exact Option.noConfusion h
  | cons y ys =>
    unfold qget at h
    injection h with h1
    injection h1 with h2 h3
    rw [h2, h3]

theorem handleLine_ok_persisted (cfg : Config) (l : List Char) (st st1 : PState)
    (hq : QueuePersisted st) (h : handleLine cfg l st = .ok st1) :
    QueuePersisted st1 := by
  unfold handleLine at h
  cases hs : splitOnFirstSpace l with
  | none => rw [hs] at h; cases h; exact hq
  | some pr =>
    rw [hs] at h
    obtain ⟨tag, payload⟩ := pr
    replace h : runHandler cfg (chooseHandler tag) payload st = Except.ok st1 := h
    cases hch : chooseHandler tag with
    | log =>
      rw [hch] at h; cases h
      intro c hc
      exact hq c hc
    | unknown =>
      rw [hch] at h; cases h
      intro c hc
      exact hq c hc
    | data =>
      rw [hch] at h
      replace h : onData cfg payload st = Except.ok st1 := h
      unfold onData at h
      cases hd : decodePayload payload with
      | error e => rw [hd] at h; exact Except.noConfusion h
      | ok cap =>
        rw [hd] at h
        replace h :
            Except.ok (enqueueIfShow cfg cap (writeCapture cap st)) = Except.ok st1 := h
        cases h
        intro c hc
        by_cases hshow : cfg.showSignal
        · simp [enqueueIfShow, hshow, writeCapture, qput] at hc ⊢
          rcases hc with hc | hc
          · exact Or.inl (hq c hc)
          · exact Or.inr hc
        · simp [enqueueIfShow, hshow, writeCapture] at hc ⊢
          exact Or.inl (hq c hc)

theorem connectionLost_queue_files (withCause : Bool) (st : PState) :
    (connectionLost withCause st).queue = st.queue ∧
      (connectionLost withCause st).files = st.files := by
  cases withCause <;> exact ⟨rfl, rfl⟩

theorem step_line_eq (cfg : Config) (l : List Char) (st : PState) :
    step cfg (.line l) st =
      match handleLine cfg l st with
      | .ok st1 => st1
      | .error _ => connectionLost true st := rfl

theorem step_sigint_eq (cfg : Config) (st : PState) :
    step cfg .sigint st = signalHandler st := rfl

theorem step_connLost_eq (cfg : Config) (b : Bool) (st : PState) :
    step cfg (.connLost b) st = connectionLost b st := rfl

theorem step_poll_eq (cfg : Config) (st : PState) :
    step cfg .poll st = pollOnce st := rfl

theorem step_persisted (cfg : Config) (s : Step) (st : PState)
    (hq : QueuePersisted st) : QueuePersisted (step cfg s st) := by
  cases s with
  | line l =>
    rw [step_line_eq]
    cases hh : handleLine cfg l st with
    | ok st1 => exact handleLine_ok_persisted cfg l st st1 hq hh
    | error e =>
      intro c hc
      replace hc : c ∈ (connectionLost true st).queue := hc
      show c ∈ (connectionLost true st).files
      rw [(connectionLost_queue_files true st).1] at hc
      rw [(connectionLost_queue_files true st).2]
      exact hq c hc
  | sigint =>
    intro c hc
    replace hc : c ∈ st.queue := hc
    show c ∈ st.files
    exact hq c hc
  | connLost b =>
    rw [step_connLost_eq]
    intro c hc
    rw [(connectionLost_queue_files b st).1] at hc
    rw [(connectionLost_queue_files b st).2]
    exact hq c hc
  | poll =>
    rw [step_poll_eq]
    unfold pollOnce
    cases hg : qget st.queue with
    | none => exact hq
    | some pr =>
      obtain ⟨x, r⟩ := pr
      intro c hc
      replace hc : c ∈ r := hc
      show c ∈ st.files
      have hqueue : st.queue = x :: r := qget_eq_some hg
      exact hq c (by rw [hqueue]; exact List.mem_cons_of_mem x hc)

theorem runSteps_persisted (cfg : Config) :
    ∀ (steps : List Step) (st : PState),
      QueuePersisted st → QueuePersisted (runSteps cfg steps st)
  | [], _, hq => hq
  | s :: rest, st, hq =>
    runSteps_persisted cfg rest (step cfg s st) (step_persisted cfg s st hq)

theorem step_done_mono (cfg : Config) (s : Step) (st : PState)
    (h : st.done = true) : (step cfg s st).done = true := by
  cases s with
  | line l =>
    rw [step_line_eq]
    cases hh : handleLine cfg l st with
    | ok st1 =>
      show st1.done = true
      rw [handleLine_done cfg l st st1 hh]
      exact h
    | error e =>
      show (connectionLost true st).done = true
      rw [connectionLost_done]
      exact h
  | sigint => rfl
  | connLost b => rw [step_connLost_eq, connectionLost_done]; exact h
  | poll => rw [step_poll_eq, pollOnce_done]; exact h

theorem mainLoop_exit (cfg : Config) (n : Nat) (st : PState)
    (h : st.done = true) : mainLoop cfg n st = st := by
  cases n with
  | zero => rfl
  | succ m => simp [mainLoop, h]

/-- C1: the connection-lost handler never changes the process-wide `done`
flag, because the source's `done = True` in `connection_lost` lacks a
`global done` declaration and therefore binds a function-local name.  In
particular, after a connection loss from the initial state the flag is
still false, so the foreground loop would not observe shutdown.  This
contradicts the claim that `connection_lost` sets the flag (the
neighbouring `signal_handler` does declare `global done`, showing the
intent the source misses). -/
theorem c1_connection_lost_leaves_flag :
    (∀ (withCause : Bool) (st : PState),
      (connectionLost withCause st).done = st.done) ∧
    (connectionLost true initState).done = false := by
  constructor
  · intro b st
    exact connectionLost_done b st
  · rfl

/-- C2 counterexample: the claim's drop condition is wrong in both
directions.  The line `"LOG "` splits into a second part that is empty,
so per the claim it should be dropped, yet the code invokes the LOG
handler with an empty payload; the line `"LOG\thi"` splits on its
whitespace run into two non-empty parts, so per the claim the handler
should run, yet the code drops it because it contains no space
character. -/
theorem c2_counterexample :
    handleLine cfg0 ("LOG ".data) initState = .ok (addEvent (.log []) initState) ∧
    (addEvent (.log []) initState).events ≠ initState.events ∧
    handleLine cfg0 ("LOG\thi".data) initState = .ok initState := by
  refine ⟨by decide, by decide, by decide⟩

/-- C2 (amended): the decoder splits each line at the first space
character (not at a whitespace run); the line is silently dropped exactly
when it contains no space character, and otherwise exactly one handler —
selected from the tag, everything before the first space — is invoked
with everything past the first space, with no non-emptiness requirement
on either part. -/
theorem c2_split_at_first_space_dispatch :
    ∀ (cfg : Config) (line : List Char) (st : PState),
      (splitOnFirstSpace line = none ↔ ' ' ∉ line) ∧
      (splitOnFirstSpace line = none → handleLine cfg line st = .ok st) ∧
      (∀ tag payload, splitOnFirstSpace line = some (tag, payload) →
        line = tag ++ ' ' :: payload ∧ ' ' ∉ tag ∧
        handleLine cfg line st = runHandler cfg (chooseHandler tag) payload st) := by
  intro cfg line st
  refine ⟨sfs_none_iff line, ?_, ?_⟩
  · intro h
    unfold handleLine
    rw [h]
  · intro tag payload h
    obtain ⟨hline, hmem⟩ := sfs_some line tag payload h
    refine ⟨hline, hmem, ?_⟩
    unfold handleLine
    rw [h]

/-- C2 witness: the dispatch branch of the amended statement at the
concrete line `"FOO bar"`. -/
theorem c2_split_witness :
    handleLine cfg0 ("FOO bar".data) initState =
      runHandler cfg0 (chooseHandler ("FOO".data)) ("bar".data) initState :=
  ((c2_split_at_first_space_dispatch cfg0 ("FOO bar".data) initState).2.2
    ("FOO".data) ("bar".data) (by decide)).2.2

/-- C3 counterexample: the payload `"0 1 100"` (odd count) does make
decoding fail with no file written, but the reader does not continue: the
exception escapes `handle_line`, the reader thread stops and invokes
`connection_lost`, so the following `"LOG hi"` line is never handled. -/
theorem c3_counterexample :
    decodePayload ("0 1 100".data) = .error .oddCount ∧
    (runReader cfg0 ["DATA 0 1 100".data, "LOG hi".data] initState).files = [] ∧
    Event.log ("hi".data) ∉
      (runReader cfg0 ["DATA 0 1 100".data, "LOG hi".data] initState).events := by
  refine ⟨by decide, by decide, by decide⟩

/-- C3 (amended): for every DATA payload whose decoding fails (odd
integer count or a non-integer token), handling fails with that decode
error before any state change — no file is written and nothing is
truncated — but the error propagates uncaught out of the handler, so the
reader thread stops (invoking the connection-lost callback) instead of
continuing with subsequent lines. -/
theorem c3_decode_error_stops_reader :
    ∀ (cfg : Config) (payload : List Char) (e : DecodeErr) (st : PState)
      (rest : List (List Char)),
      decodePayload payload = .error e →
      onData cfg payload st = .error e ∧
      runReader cfg (("DATA".data ++ ' ' :: payload) :: rest) st =
        connectionLost true st := by
  intro cfg payload e st rest h
  refine ⟨onData_error_eq cfg payload e st h, ?_⟩
  unfold runReader
  rw [handleLine_dataLine, onData_error_eq cfg payload e st h]

/-- C3 witness: the amended statement at the odd payload `"0 1 100"`
followed by a further line that is consequently never processed. -/
theorem c3_decode_error_witness :
    onData cfg0 ("0 1 100".data) initState = .error .oddCount ∧
    runReader cfg0 (("DATA".data ++ ' ' :: "0 1 100".data) :: ["LOG hi".data])
        initState =
      connectionLost true initState :=
  c3_decode_error_stops_reader cfg0 ("0 1 100".data) .oddCount initState
    ["LOG hi".data] (by decide)

/-- C4: round trips.  Every even-length integer sequence survives
encoding into a payload and decoding back unchanged (both as the flat
token sequence and through the pairwise capture), and re-reading the text
that the capture writer persists reproduces the (timestamp, state) pairs
exactly and in order. -/
theorem c4_roundtrip :
    (∀ S : List Int, S.length % 2 = 0 →
      decodeInts (encodePayload S) = some S ∧
      (decodePayload (encodePayload S)).map flattenPairs = .ok S) ∧
    (∀ ps : List (Int × Int), readCSV (writeCSV ps) = some ps) :=
  ⟨fun S h => ⟨decodeInts_encodePayload S, decodePayload_encodePayload S h⟩,
    readCSV_writeCSV⟩

/-- C4 witness: the round trips at the concrete capture
`[(0, 1), (100, 0)]` and its flat sequence. -/
theorem c4_roundtrip_witness :
    decodeInts (encodePayload [0, 1, 100, 0]) = some [0, 1, 100, 0] ∧
    readCSV (writeCSV [(0, 1), (100, 0)]) = some [(0, 1), (100, 0)] :=
  ⟨(c4_roundtrip.1 [0, 1, 100, 0] (by decide)).1,
    c4_roundtrip.2 [(0, 1), (100, 0)]⟩

/-- C5 counterexample: on the line `"FOO bar"` the unknown-tag handler is
invoked with the payload `"bar"` alone — the event produced differs from
the invocation with the pair `("FOO", "bar")` that the claim describes,
because `handle_line` passes only `args[1]` and `onUnknown` takes a
single argument. -/
theorem c5_counterexample :
    handleLine cfg0 ("FOO bar".data) initState =
      .ok (addEvent (.unknown ("bar".data)) initState) ∧
    addEvent (.unknown ("bar".data)) initState ≠
      addEvent (.unknownPair ("FOO".data) ("bar".data)) initState := by
  refine ⟨by decide, by decide⟩

/-- C5 (amended): for the line `"FOO bar"` the unknown-tag handler is
invoked with the payload only (`"bar"`); the tag is not passed to it.  No
file is created and no error is raised. -/
theorem c5_unknown_handler_payload_only :
    ∀ (cfg : Config) (st : PState),
      handleLine cfg ("FOO bar".data) st =
        .ok (addEvent (.unknown ("bar".data)) st) ∧
      (addEvent (.unknown ("bar".data)) st).files = st.files := by
  intro cfg st
  exact ⟨rfl, rfl⟩

/-- C6 counterexample: the payload `"0 5"` has a state value outside
{0, 1}, yet decoding succeeds and handling the line persists the pair
(0, 5) to a file instead of rejecting it with a decode error. -/
theorem c6_counterexample :
    decodePayload ("0 5".data) = .ok [(0, 5)] ∧
    handleLine cfg0 ("DATA 0 5".data) initState =
      .ok (enqueueIfShow cfg0 [(0, 5)] (writeCapture [(0, 5)] initState)) ∧
    (enqueueIfShow cfg0 [(0, 5)] (writeCapture [(0, 5)] initState)).files =
      [[(0, 5)]] := by
  refine ⟨by decide, by decide, by decide⟩

/-- C6 (amended): state values are not validated.  Every payload that
decodes — an even count of integer tokens, with any integer allowed in
the state position — is accepted and persisted unchanged, out-of-range
states included. -/
theorem c6_out_of_range_state_passthrough :
    ∀ (cfg : Config) (payload : List Char) (cap : List (Int × Int)) (st : PState),
      decodePayload payload = .ok cap →
      onData cfg payload st = .ok (enqueueIfShow cfg cap (writeCapture cap st)) ∧
      (enqueueIfShow cfg cap (writeCapture cap st)).files = st.files ++ [cap] := by
  intro cfg payload cap st h
  refine ⟨onData_ok_eq cfg payload cap st h, ?_⟩
  by_cases hshow : cfg.showSignal <;> simp [enqueueIfShow, hshow, writeCapture]

/-- C6 witness: the amended statement at the out-of-range payload
`"0 5"` (state value 5). -/
theorem c6_passthrough_witness :
    onData cfgShow ("0 5".data) initState =
      .ok (enqueueIfShow cfgShow [(0, 5)] (writeCapture [(0, 5)] initState)) ∧
    (enqueueIfShow cfgShow [(0, 5)] (writeCapture [(0, 5)] initState)).files =
      initState.files ++ [[(0, 5)]] :=
  c6_out_of_range_state_passthrough cfgShow ("0 5".data) [(0, 5)] initState
    (by decide)

/-- C7: processing the line `"DATA 0 1 100 0"` from any state succeeds,
creates exactly one new file holding the rows (0, 1) and (100, 0) in that
order, emits the capture confirmation, and appends exactly that capture
to the display queue when `showSignal` is enabled while leaving the queue
unchanged when it is disabled. -/
theorem c7_data_scenario :
    ∀ (cfg : Config) (st : PState),
      handleLine cfg ("DATA 0 1 100 0".data) st =
        .ok { st with
              files := st.files ++ [[(0, 1), (100, 0)]],
              events := st.events ++ [.dataCaptured [(0, 1), (100, 0)]],
              queue := if cfg.showSignal then st.queue ++ [[(0, 1), (100, 0)]]
                       else st.queue } := by
  intro cfg st
  have hline : ("DATA 0 1 100 0".data) = "DATA".data ++ ' ' :: ("0 1 100 0".data) := by
    decide
  have hd : decodePayload ("0 1 100 0".data) = .ok [(0, 1), (100, 0)] := by decide
  rw [hline, handleLine_dataLine, onData_ok_eq cfg _ _ st hd]
  obtain ⟨d, f, q, ev⟩ := st
  by_cases hshow : cfg.showSignal <;>
    simp [enqueueIfShow, hshow, writeCapture, qput]

/-- C8: the shutdown flag is set by the signal handler, is never reset by
any step of either context once it is true, and the foreground loop,
whose guard rechecks the flag at every wake, exits at its very next test
without executing another body once the flag is observed set. -/
theorem c8_shutdown_flag_monotone_prompt_exit :
    (∀ st : PState, (signalHandler st).done = true) ∧
    (∀ (cfg : Config) (s : Step) (st : PState),
      st.done = true → (step cfg s st).done = true) ∧
    (∀ (cfg : Config) (n : Nat) (st : PState),
      st.done = true → mainLoop cfg n st = st) :=
  ⟨fun _ => rfl, step_done_mono, mainLoop_exit⟩

/-- C8 witness: after the interrupt handler runs, any further step keeps
the flag set and the loop exits immediately with the state unchanged. -/
theorem c8_shutdown_witness :
    (step cfg0 Step.poll (signalHandler initState)).done = true ∧
    mainLoop cfg0 3 (signalHandler initState) = signalHandler initState :=
  ⟨c8_shutdown_flag_monotone_prompt_exit.2.1 cfg0 Step.poll (signalHandler initState)
      (c8_shutdown_flag_monotone_prompt_exit.1 initState),
    c8_shutdown_flag_monotone_prompt_exit.2.2 cfg0 3 (signalHandler initState)
      (c8_shutdown_flag_monotone_prompt_exit.1 initState)⟩

/-- C9: the display queue is unbounded: enqueue is a total operation that
appends the new capture to the existing contents (never blocking, never
reporting a full queue, never dropping an item), the non-blocking dequeue
returns items in FIFO order, and the reader context enqueues via exactly
this append whenever `showSignal` is enabled. -/
theorem c9_queue_unbounded_fifo :
    (∀ (q : List (List (Int × Int))) (x : List (Int × Int)), qput x q = q ++ [x]) ∧
    (∀ (x : List (Int × Int)) (r : List (List (Int × Int))),
      qget (x :: r) = some (x, r)) ∧
    qget ([] : List (List (Int × Int))) = none ∧
    (∀ (cfg : Config) (cap : List (Int × Int)) (st : PState),
      cfg.showSignal = true → (enqueueIfShow cfg cap st).queue = st.queue ++ [cap]) := by
  refine ⟨fun _ _ => rfl, fun _ _ => rfl, rfl, ?_⟩
  intro cfg cap st h
  simp [enqueueIfShow, h, qput]

/-- C9 witness: the enqueue equation at a concrete capture with the
display enabled. -/
theorem c9_queue_witness :
    (enqueueIfShow cfgShow [(0, 1)] initState).queue = initState.queue ++ [[(0, 1)]] :=
  c9_queue_unbounded_fifo.2.2.2 cfgShow [(0, 1)] initState (by decide)

/-- C10: in the DATA path the capture is persisted (and the confirmation
emitted) before the enqueue is even attempted — the enqueue operates on a
state whose files already contain the capture — and consequently, over
every interleaving of reader steps, signals, connection losses and
foreground polls from the initial state, every capture present in the
display queue is already among the persisted files. -/
theorem c10_persist_before_enqueue :
    (∀ (cfg : Config) (payload : List Char) (cap : List (Int × Int)) (st : PState),
      decodePayload payload = .ok cap →
      onData cfg payload st = .ok (enqueueIfShow cfg cap (writeCapture cap st)) ∧
      cap ∈ (writeCapture cap st).files) ∧
    (∀ (cfg : Config) (s : Step) (st : PState),
      QueuePersisted st → QueuePersisted (step cfg s st)) ∧
    (∀ (cfg : Config) (steps : List Step),
      QueuePersisted (runSteps cfg steps initState)) := by
  refine ⟨?_, step_persisted, ?_⟩
  · intro cfg payload cap st h
    refine ⟨onData_ok_eq cfg payload cap st h, ?_⟩
    simp [writeCapture]
  · intro cfg steps
    refine runSteps_persisted cfg steps initState ?_
    intro c hc
    simp [initState] at hc

/-- C10 witness: handling a DATA line with display enabled from the
initial state preserves the queue-persisted invariant. -/
theorem c10_persist_witness :
    QueuePersisted (step cfgShow (Step.line ("DATA 0 1".data)) initState) :=
  c10_persist_before_enqueue.2.1 cfgShow (Step.line ("DATA 0 1".data)) initState
    (by intro c hc; simp [initState] at hc)

end Receive
